import Mathlib

/-!
Shallow embedding of the Samay_Saarthi timetable core:
the time model (`src/models.py`), the conflict detector (`src/validators.py`)
and the repair-loop orchestrator (`src/timetable_graph.py`, `src/agents.py`).

Python dicts keyed in insertion order are modelled by first-occurrence
key lists (`dedupFirst`) together with `List.filter`; the external LLM
oracle is an abstract record of functions whose parse failures are `none`.
-/

namespace Samay

/-- Day-of-week enumerant, from `models.DayOfWeek`. -/
inductive DayOfWeek where
  | monday | tuesday | wednesday | thursday | friday | saturday | sunday
deriving DecidableEq, Repr

/-- The `.value` string of a `DayOfWeek` member. -/
def DayOfWeek.value : DayOfWeek → String
  | .monday => "Monday"
  | .tuesday => "Tuesday"
  | .wednesday => "Wednesday"
  | .thursday => "Thursday"
  | .friday => "Friday"
  | .saturday => "Saturday"
  | .sunday => "Sunday"

/-- Model of `DayOfWeek(s)` enum construction: succeeds only on the seven canonical
names, otherwise raises (modelled as `none`). -/
def DayOfWeek.ofString? (s : String) : Option DayOfWeek :=
  if s = "Monday" then some .monday
  else if s = "Tuesday" then some .tuesday
  else if s = "Wednesday" then some .wednesday
  else if s = "Thursday" then some .thursday
  else if s = "Friday" then some .friday
  else if s = "Saturday" then some .saturday
  else if s = "Sunday" then some .sunday
  else none

/-- Model of `models.TimeSlot`: a clock interval held as `"HH:MM"` text. -/
structure TimeSlot where
  start_time : String
  end_time : String
deriving DecidableEq, Repr

/-- Model of `str.split(sep)` on a character list: splitting an empty string yields
one empty part, and separators delimit possibly-empty parts. -/
def splitCharList (sep : Char) : List Char → List (List Char)
  | [] => [[]]
  | c :: cs =>
    let r := splitCharList sep cs
    if c = sep then [] :: r
    else match r with
      | [] => [[c]]
      | p :: ps => (c :: p) :: ps

/-- One step of decimal accumulation for `int(...)`. -/
def parseDigitsAux : Nat → List Char → Option Nat
  | acc, [] => some acc
  | acc, c :: cs =>
    if '0' ≤ c ∧ c ≤ '9' then parseDigitsAux (acc * 10 + (c.toNat - '0'.toNat)) cs
    else none

/-- Model of `int(s)` on the digit strings the time format uses: reads a non-empty
run of decimal digits, failing (raising `ValueError`) otherwise. -/
def pyInt? (s : String) : Option Nat :=
  match s.data with
  | [] => none
  | cs => parseDigitsAux 0 cs

/-- Model of `TimeSlot._time_to_minutes`, split into a fallible parse: `int(...)`
raises on malformed text and the tuple unpacking `hours, minutes = ...`
raises unless `split(':')` yields exactly two parts. -/
def timeToMinutes? (s : String) : Option Nat :=
  match (splitCharList ':' s.data).map (fun part => pyInt? (String.mk part)) with
  | [some h, some m] => some (h * 60 + m)
  | _ => none

/-- Total version of the conversion used by the detector; the claims only
exercise it on parseable `"HH:MM"` text, where it agrees with the source. -/
def timeToMinutes (s : String) : Nat := (timeToMinutes? s).getD 0

/-- Model of `TimeSlot.overlaps_with`: `not (end1 <= start2 or end2 <= start1)`. -/
def TimeSlot.overlaps_with (a b : TimeSlot) : Bool :=
  let start1 := timeToMinutes a.start_time
  let end1 := timeToMinutes a.end_time
  let start2 := timeToMinutes b.start_time
  let end2 := timeToMinutes b.end_time
  !(end1 ≤ start2 || end2 ≤ start1)

/-- Model of `models.Faculty` (the capacities table rows). -/
structure Faculty where
  id : String
  name : String
  department : String
  max_hours_per_week : Int
  expertise_areas : List String
deriving DecidableEq, Repr

/-- Model of `models.Course`; only threaded through to the oracle, never inspected
by the detector (preference fields that no modelled path reads are omitted). -/
structure Course where
  code : String
  name : String
  credits : Int
  department : String
  faculty_id : String
  hours_per_week : Int
deriving DecidableEq, Repr

/-- Model of `models.TimetableSlot`: one session of the assignment. -/
structure TimetableSlot where
  course_code : String
  faculty_id : String
  day : DayOfWeek
  time_slot : TimeSlot
  room : Option String
  student_ids : List String
deriving DecidableEq, Repr

end Samay

namespace Samay

/-- One entry of the validator's conflict list. The source renders each as a
formatted string; the embedding keeps the interpolated fields structurally
(same data, same order of emission). -/
inductive Conflict where
  /-- Rendered "Faculty {id} has conflicting schedules: {c1} and {c2} on {day} at
  {start}-{end}" -/
  | facultyOverlap (facultyId course1 course2 : String) (day : DayOfWeek)
      (startTime endTime : String)
  /-- Rendered "Room {room} has conflicting bookings: {c1} and {c2} on {day} at
  {start}-{end}" -/
  | roomOverlap (room course1 course2 : String) (day : DayOfWeek)
      (startTime endTime : String)
  /-- Rendered "Faculty {id} is overloaded: {total} hours (max: {max} hours)" -/
  | overload (facultyId : String) (totalHours : ℚ) (maxHours : Int)
  /-- Rendered "Unbalanced credit distribution across days. Daily slots: {dist}" -/
  | unbalanced (dailyDistribution : List (String × Nat))
deriving DecidableEq, Repr

/-- The keys of a `defaultdict` built by appending, in insertion order:
each key once, at its first occurrence. -/
def dedupFirst {κ : Type} [DecidableEq κ] : List κ → List κ
  | [] => []
  | k :: ks => k :: (dedupFirst ks).filter (fun x => x ≠ k)

/-- A `defaultdict(list)` built by one pass of appends: pairs each key (in
first-occurrence order) with the sub-list of elements having that key (in
original order). -/
def groupByKey {α κ : Type} [DecidableEq κ] (key : α → κ) (l : List α) :
    List (κ × List α) :=
  (dedupFirst (l.map key)).map (fun k => (k, l.filter (fun s => key s = k)))

/-- The double loop `for i, for j in range(i+1, ...)` collecting `mk a b`
for every ordered index pair `i < j` for which `mk` fires. -/
def pairConflicts {α : Type} (mk : α → α → Option Conflict) : List α → List Conflict
  | [] => []
  | s :: rest => rest.filterMap (mk s) ++ pairConflicts mk rest

/-- The pair condition of both double-booking checks: same day and
overlapping time slots. -/
def slotsClash (s1 s2 : TimetableSlot) : Bool :=
  s1.day = s2.day && s1.time_slot.overlaps_with s2.time_slot

/-- Model of `TimetableValidator._check_faculty_time_conflicts` (as the list of
conflicts it appends). -/
def checkFacultyTimeConflicts (slots : List TimetableSlot) : List Conflict :=
  (groupByKey (fun s => s.faculty_id) slots).flatMap fun g =>
    pairConflicts
      (fun s1 s2 =>
        if slotsClash s1 s2 then
          some (.facultyOverlap g.1 s1.course_code s2.course_code s1.day
            s1.time_slot.start_time s1.time_slot.end_time)
        else none)
      g.2

/-- Truthiness of `slot.room` in `if slot.room:`: `None` and `""` are falsy. -/
def hasRoom (s : TimetableSlot) : Bool :=
  match s.room with
  | none => false
  | some r => r ≠ ""

/-- Model of `TimetableValidator._check_room_conflicts`: group the slots with a truthy
room by room, then the same pairwise clash check. -/
def checkRoomConflicts (slots : List TimetableSlot) : List Conflict :=
  (groupByKey (fun s => s.room.getD "") (slots.filter hasRoom)).flatMap fun g =>
    pairConflicts
      (fun s1 s2 =>
        if slotsClash s1 s2 then
          some (.roomOverlap g.1 s1.course_code s2.course_code s1.day
            s1.time_slot.start_time s1.time_slot.end_time)
        else none)
      g.2

/-- Round a rational to the nearest integer, ties to even — the rounding
rule of IEEE-754 binary64 arithmetic. -/
def roundNearestEven (q : ℚ) : ℤ :=
  let f := ⌊q⌋
  let r := q - f
  if r < 1/2 then f
  else if 1/2 < r then f + 1
  else if 2 ∣ f then f else f + 1

/-- Rounding of an exact rational result to a binary64 float (53-bit
significand, round to nearest, ties to even), modelled in the normal range
with an unbounded exponent: the rounding Python applies to every float
operation the workload check performs. Overflow and subnormal underflow do
not occur at the magnitudes a timetable produces. -/
def fpRound (x : ℚ) : ℚ :=
  if x = 0 then 0
  else
    let e : ℤ := Int.log 2 |x| - 52
    let m : ℤ := roundNearestEven (|x| / (2 : ℚ) ^ e)
    (if x < 0 then -1 else 1) * m * (2 : ℚ) ^ e

/-- Duration of one slot in hours: `(end_minutes - start_minutes) / 60` —
exact `int` subtraction followed by float true division, whose correctly
rounded binary64 result is `fpRound` of the exact quotient. -/
def slotHours (s : TimetableSlot) : ℚ :=
  fpRound (((timeToMinutes s.time_slot.end_time : ℚ) -
    (timeToMinutes s.time_slot.start_time : ℚ)) / 60)

/-- Float accumulation `faculty_hours[fid] += hours` over a list of slots:
one binary64 rounding per addition, starting from the `defaultdict`'s
exact `int` zero. -/
def accumHours (slots : List TimetableSlot) : ℚ :=
  slots.foldl (fun acc s => fpRound (acc + slotHours s)) 0

/-- The `faculty_hours` accumulator: per faculty id (in first-occurrence
order) the float-accumulated duration of that faculty's slots. -/
def facultyHours (slots : List TimetableSlot) : List (String × ℚ) :=
  (groupByKey (fun s => s.faculty_id) slots).map fun g =>
    (g.1, accumHours g.2)

/-- The dict comprehension `{f.id: f for f in faculty}`: the last record
with a given id wins. -/
def facultyLookup (faculty : List Faculty) (fid : String) : Option Faculty :=
  faculty.reverse.find? (fun f => f.id = fid)

/-- The body of the workload loop for one `faculty_hours` item: an entry is
emitted iff the id is in the capacities dict and the total strictly exceeds
its cap. -/
def mkOverload (faculty : List Faculty) (fh : String × ℚ) : Option Conflict :=
  match facultyLookup faculty fh.1 with
  | some f => if fh.2 > (f.max_hours_per_week : ℚ)
      then some (.overload fh.1 fh.2 f.max_hours_per_week) else none
  | none => none

/-- Model of `TimetableValidator._check_faculty_workload`: one overload entry per
faculty id that appears in the capacities dict and whose total strictly
exceeds its cap. -/
def checkFacultyWorkload (slots : List TimetableSlot) (faculty : List Faculty) :
    List Conflict :=
  (facultyHours slots).filterMap (mkOverload faculty)

/-- Python's `max` over a non-empty list (the `[]` branch is unreachable
behind the `if slot_counts:` guard). -/
def listMax : List ℚ → ℚ
  | [] => 0
  | x :: xs => xs.foldl max x

/-- The per-day slot groups of `_check_credit_distribution`. -/
def dayGroups (slots : List TimetableSlot) : List (DayOfWeek × List TimetableSlot) :=
  groupByKey (fun s => s.day) slots

/-- Model of `avg_slots`: mean session count over the days that have sessions. -/
def avgSlots (slots : List TimetableSlot) : ℚ :=
  (((dayGroups slots).map (fun g => g.2.length)).sum : ℚ) / (dayGroups slots).length

/-- The deviation `abs(count - avg_slots)` for one day's session count. -/
def deviation (avg : ℚ) (c : Nat) : ℚ := |(c : ℚ) - avg|

/-- Model of `TimetableValidator._check_credit_distribution`: emit one entry iff some
day's count deviates from the mean by strictly more than 2. -/
def checkCreditDistribution (slots : List TimetableSlot) : List Conflict :=
  let counts := (dayGroups slots).map (fun g => g.2.length)
  if counts = [] then []
  else
    let maxDeviation := listMax (counts.map (deviation (avgSlots slots)))
    if maxDeviation > 2 then
      [.unbalanced ((dayGroups slots).map (fun g => (g.1.value, g.2.length)))]
    else []

/-- Model of `TimetableValidator.validate_timetable`: run the four checks in order
into one conflict list; valid iff that list is empty. -/
def validateTimetable (slots : List TimetableSlot) (faculty : List Faculty) :
    Bool × List Conflict :=
  let conflicts :=
    checkFacultyTimeConflicts slots ++ checkRoomConflicts slots ++
      checkFacultyWorkload slots faculty ++ checkCreditDistribution slots
  (conflicts.length == 0, conflicts)

/-- Number of index pairs `i < j` of a list on which `p` fires — the
specification-side count of unordered conflicting pairs. -/
def countPairs {α : Type} (p : α → α → Bool) : List α → Nat
  | [] => 0
  | s :: rest => rest.countP (p s) + countPairs p rest

/-- An unordered pair of sessions that the faculty double-booking rule is
about: same faculty id, same day, overlapping intervals. -/
def sameFacultyClash (a b : TimetableSlot) : Bool :=
  decide (a.faculty_id = b.faculty_id) && slotsClash a b

/-- Whether a conflict entry is a faculty double-booking entry naming the
given faculty id. -/
def Conflict.namesFacultyId (c : Conflict) (fid : String) : Bool :=
  match c with
  | .facultyOverlap f _ _ _ _ _ => decide (f = fid)
  | _ => false

/-- Whether a conflict entry is an overload entry naming the given faculty
id. -/
def Conflict.isOverloadFor (c : Conflict) (fid : String) : Bool :=
  match c with
  | .overload f _ _ => decide (f = fid)
  | _ => false

/-- Total float-accumulated hours of one faculty id over an assignment
(the value `faculty_hours` holds for that key). -/
def floatFacultyHours (slots : List TimetableSlot) (fid : String) : ℚ :=
  accumHours (slots.filter (fun s => s.faculty_id = fid))

/-- Follows the claim's words (the refinement side): the exact duration
`(endMinutes - startMinutes)/60` of one session, with no float rounding. -/
def exactSlotHours (s : TimetableSlot) : ℚ :=
  ((timeToMinutes s.time_slot.end_time : ℚ) -
    (timeToMinutes s.time_slot.start_time : ℚ)) / 60

/-- Follows the claim's words (the refinement side): the exact rational
total of one faculty id's session durations, to be compared with the float
accumulation the source performs. -/
def exactFacultyHours (slots : List TimetableSlot) (fid : String) : ℚ :=
  ((slots.filter (fun s => s.faculty_id = fid)).map exactSlotHours).sum

/-- Four sessions of 15, 115, 115 and 115 minutes for faculty `F001`:
their exact total is 360 minutes = 6 hours, but the float accumulation
rounds up to strictly more than 6. -/
def overloadBoundarySlots : List TimetableSlot :=
  [⟨"CS101", "F001", .monday, ⟨"09:00", "09:15"⟩, none, []⟩,
   ⟨"CS102", "F001", .tuesday, ⟨"09:00", "10:55"⟩, none, []⟩,
   ⟨"CS103", "F001", .wednesday, ⟨"09:00", "10:55"⟩, none, []⟩,
   ⟨"CS104", "F001", .thursday, ⟨"09:00", "10:55"⟩, none, []⟩]

/-- The `TimetableState` dict threaded through the graph (the `students` and
`student_timetables` keys, never touched by the modelled workflow, are
omitted). -/
structure GraphState where
  courses : List Course
  faculty : List Faculty
  generated_slots : List TimetableSlot
  conflicts : List Conflict
  status : String
  iteration : Nat
deriving DecidableEq, Repr

/-- One record of the JSON session lists exchanged with the oracle
(`{course_code, faculty_id, day, time_slot:{start_time,end_time}, room}`). -/
structure SlotData where
  course_code : String
  faculty_id : String
  day : String
  time_slot : TimeSlot
  room : Option String
deriving DecidableEq, Repr

/-- The dict built from a `TimetableSlot` before an oracle call
(`student_ids` is not serialized). -/
def dataOfSlot (s : TimetableSlot) : SlotData :=
  ⟨s.course_code, s.faculty_id, s.day.value, s.time_slot, s.room⟩

/-- Parsing one oracle record back into a `TimetableSlot`: fails (the
`except: continue` branch) exactly when `DayOfWeek(...)` rejects the day
string; `student_ids` takes its default `[]`. -/
def slotOfData? (d : SlotData) : Option TimetableSlot :=
  (DayOfWeek.ofString? d.day).map fun day =>
    { course_code := d.course_code, faculty_id := d.faculty_id, day := day,
      time_slot := d.time_slot, room := d.room, student_ids := [] }

/-- The per-record try/except parsing loop: unparseable records are dropped
individually. -/
def parseSlots (l : List SlotData) : List TimetableSlot :=
  l.filterMap slotOfData?

/-- The external LLM, abstracted to the three calls the agent makes.  A
`none` result models a call whose output could not be parsed as JSON
(`json.loads` raising inside the agent's `try`).  `generate` already folds
that case in: on failure the agent returns `[]`. -/
structure Oracle where
  generate : List Course → List Faculty → List SlotData
  resolve : List SlotData → List Conflict → List Course → List Faculty →
    Option (List SlotData)
  optimize : List SlotData → List Course → List Faculty → Option (List SlotData)

namespace TimetableAgent

/-- Model of `TimetableAgent.resolve_conflicts`: on parse failure the agent returns
`current_timetable` unchanged. -/
def resolveConflicts (o : Oracle) (current : List SlotData)
    (conflicts : List Conflict) (courses : List Course) (faculty : List Faculty) :
    List SlotData :=
  (o.resolve current conflicts courses faculty).getD current

/-- Model of `TimetableAgent.optimize_distribution`: on parse failure the agent
returns the input `timetable` unchanged. -/
def optimizeDistribution (o : Oracle) (timetable : List SlotData)
    (courses : List Course) (faculty : List Faculty) : List SlotData :=
  (o.optimize timetable courses faculty).getD timetable

end TimetableAgent

namespace TimetableGraph

/-- The initial state built by `TimetableGraph.generate_timetable`. -/
def initialState (courses : List Course) (faculty : List Faculty) : GraphState :=
  { courses := courses, faculty := faculty, generated_slots := [],
    conflicts := [], status := "initializing", iteration := 0 }

/-- Node `generate_initial` (`_generate_initial_timetable`): parse the
oracle's candidate and set `iteration` to 1. -/
def generateInitial (o : Oracle) (st : GraphState) : GraphState :=
  { st with generated_slots := parseSlots (o.generate st.courses st.faculty),
            status := "initial_generated", iteration := 1 }

/-- Node `validate` (`_validate_timetable`). -/
def validate (st : GraphState) : GraphState :=
  { st with conflicts := (validateTimetable st.generated_slots st.faculty).2,
            status := if (validateTimetable st.generated_slots st.faculty).1
              then "valid" else "has_conflicts" }

/-- The conditional-edge router `_should_resolve_conflicts`. -/
def shouldResolveConflicts (st : GraphState) : String :=
  if st.conflicts ≠ [] then
    if st.iteration < 3 then "resolve" else "finalize"
  else "optimize"

/-- Node `resolve_conflicts` (`_resolve_conflicts`): serialize, call the
agent, re-parse, and increment the iteration counter. -/
def resolveConflicts (o : Oracle) (st : GraphState) : GraphState :=
  { st with
      generated_slots := parseSlots (TimetableAgent.resolveConflicts o
        (st.generated_slots.map dataOfSlot) st.conflicts st.courses st.faculty),
      status := "conflicts_resolved", iteration := st.iteration + 1 }

/-- Node `optimize` (`_optimize_timetable`). -/
def optimize (o : Oracle) (st : GraphState) : GraphState :=
  { st with
      generated_slots := parseSlots (TimetableAgent.optimizeDistribution o
        (st.generated_slots.map dataOfSlot) st.courses st.faculty),
      status := "optimized" }

/-- Node `finalize` (`_finalize_timetable`). -/
def finalize (st : GraphState) : GraphState :=
  { st with status := "finalized" }

/-- The compiled workflow from the `validate` node onward: route on
`shouldResolveConflicts`, looping `resolve_conflicts → validate`.  The
second component instruments the run with the number of `resolve_conflicts`
invocations (repair attempts) it performs. -/
def loop (o : Oracle) (st : GraphState) : GraphState × Nat :=
  if h : shouldResolveConflicts (validate st) = "resolve" then
    let r := loop o (resolveConflicts o (validate st))
    (r.1, r.2 + 1)
  else if shouldResolveConflicts (validate st) = "optimize" then
    (finalize (optimize o (validate st)), 0)
  else
    (finalize (validate st), 0)
termination_by 3 - st.iteration
decreasing_by
  simp only [shouldResolveConflicts] at h
  split at h
  · split at h
    · simp only [resolveConflicts, validate] at *
      omega
    · exact absurd h (by decide)
  · exact absurd h (by decide)

/-- Model of `TimetableGraph.generate_timetable`: run the graph from the initial
state, returning the final state and the instrumented repair-attempt
count. -/
def generateTimetable (o : Oracle) (courses : List Course)
    (faculty : List Faculty) : GraphState × Nat :=
  loop o (generateInitial o (initialState courses faculty))

end TimetableGraph

/-- A candidate session list whose two sessions double-book faculty `F001`
on Monday with overlapping intervals. -/
def clashingCandidate : List SlotData :=
  [⟨"CS101", "F001", "Monday", ⟨"09:00", "10:00"⟩, none⟩,
   ⟨"CS201", "F001", "Monday", ⟨"09:30", "10:30"⟩, none⟩]

/-- An oracle stub that always returns the same still-conflicting
candidate, both on generation and on every repair call. -/
def stubOracle : Oracle :=
  { generate := fun _ _ => clashingCandidate,
    resolve := fun _ _ _ _ => some clashingCandidate,
    optimize := fun t _ _ => some t }

/-- An oracle whose repair and optimize calls always fail to parse. -/
def failingOracle : Oracle :=
  { generate := fun _ _ => [],
    resolve := fun _ _ _ _ => none,
    optimize := fun _ _ _ => none }

end Samay

namespace Samay

/- Theorems for the time model (claims C2 and C9). -/

/-- Well-formed time slot per the spec: both endpoints parse and start < end. -/
def TimeSlot.WellFormed (t : TimeSlot) : Prop :=
  (timeToMinutes? t.start_time).isSome ∧ (timeToMinutes? t.end_time).isSome ∧
    timeToMinutes t.start_time < timeToMinutes t.end_time

instance (t : TimeSlot) : Decidable t.WellFormed := by
  unfold TimeSlot.WellFormed; infer_instance

/-- C2: for well-formed time slots, `overlaps_with` is exactly the interval
test `¬ (end1 ≤ start2 ∨ end2 ≤ start1)` on minutes-since-midnight; touching
endpoints do not overlap, as witnessed by the two concrete examples. -/
theorem overlaps_with_correct :
    (∀ a b : TimeSlot, a.WellFormed → b.WellFormed →
      (a.overlaps_with b = true ↔
        ¬ (timeToMinutes a.end_time ≤ timeToMinutes b.start_time ∨
           timeToMinutes b.end_time ≤ timeToMinutes a.start_time))) ∧
    TimeSlot.overlaps_with ⟨"09:00", "10:00"⟩ ⟨"09:30", "10:30"⟩ = true ∧
    TimeSlot.overlaps_with ⟨"09:00", "10:00"⟩ ⟨"10:00", "11:00"⟩ = false := by
  refine ⟨fun a b _ _ => ?_, by decide, by decide⟩
  simp [TimeSlot.overlaps_with, not_or]

/-- C2 witness: the universal part of `overlaps_with_correct` applied at the
concrete pair 09:00-10:00 versus 09:30-10:30. -/
theorem overlaps_with_correct_witness :
    TimeSlot.overlaps_with ⟨"09:00", "10:00"⟩ ⟨"09:30", "10:30"⟩ = true ↔
      ¬ (timeToMinutes "10:00" ≤ timeToMinutes "09:30" ∨
         timeToMinutes "10:30" ≤ timeToMinutes "09:00") :=
  overlaps_with_correct.1 ⟨"09:00", "10:00"⟩ ⟨"09:30", "10:30"⟩
    (by decide) (by decide)

/-- C9: `overlaps_with` is symmetric for all time slots. -/
theorem overlaps_with_symm (a b : TimeSlot) :
    a.overlaps_with b = b.overlaps_with a := by
  simp [TimeSlot.overlaps_with]
  exact Bool.and_comm _ _

/- Theorems for the conflict detector (claims C3, C4, C5, C8, C10). -/

/- Helper lemmas about `dedupFirst`, `groupByKey`, `pairConflicts` and
`countPairs`, shared by the detector theorems. -/

theorem mem_dedupFirst {κ : Type} [DecidableEq κ] {x : κ} :
    ∀ {l : List κ}, x ∈ dedupFirst l ↔ x ∈ l := by
  intro l
  induction l with
  | nil => simp [dedupFirst]
  | cons k ks ih =>
    simp only [dedupFirst, List.mem_cons, List.mem_filter, ih, decide_eq_true_eq]
    by_cases hx : x = k <;> simp [hx]

theorem nodup_dedupFirst {κ : Type} [DecidableEq κ] :
    ∀ l : List κ, (dedupFirst l).Nodup := by
  intro l
  induction l with
  | nil => simp [dedupFirst]
  | cons k ks ih =>
    refine List.nodup_cons.mpr ⟨fun hmem => ?_, ih.filter _⟩
    rcases List.mem_filter.mp hmem with ⟨-, hne⟩
    simp at hne

theorem length_filterMap_eq_countP {α : Type} {f : α → Option Conflict}
    {p : α → Bool} (hf : ∀ a, (f a).isSome = p a) :
    ∀ l : List α, (l.filterMap f).length = l.countP p := by
  intro l
  induction l with
  | nil => rfl
  | cons a l ih =>
    rcases hsome : f a with _ | c
    · have hp : p a = false := by rw [← hf a, hsome]; rfl
      simp [List.filterMap_cons, hsome, List.countP_cons, hp, ih]
    · have hp : p a = true := by rw [← hf a, hsome]; rfl
      simp [List.filterMap_cons, hsome, List.countP_cons, hp, ih]

theorem pairConflicts_length {α : Type} {mk : α → α → Option Conflict}
    {p : α → α → Bool} (hmk : ∀ a b, (mk a b).isSome = p a b) :
    ∀ l : List α, (pairConflicts mk l).length = countPairs p l := by
  intro l
  induction l with
  | nil => rfl
  | cons s rest ih =>
    simp only [pairConflicts, countPairs, List.length_append, ih,
      length_filterMap_eq_countP (hmk s) rest]

theorem sum_map_add {κ : Type} (f g : κ → Nat) :
    ∀ K : List κ, (K.map fun k => f k + g k).sum = (K.map f).sum + (K.map g).sum := by
  intro K
  induction K with
  | nil => rfl
  | cons k ks ih => simp [ih]; omega

theorem sum_map_ite_single {κ : Type} [DecidableEq κ] (f : κ → Nat) (c : κ) :
    ∀ K : List κ, K.Nodup → c ∈ K →
      (K.map fun k => if c = k then f k else 0).sum = f c := by
  intro K
  induction K with
  | nil => simp
  | cons k ks ih =>
    intro hnd hc
    simp only [List.map_cons, List.sum_cons]
    rcases List.mem_cons.mp hc with rfl | hmem
    · rw [if_pos rfl]
      have hz : (ks.map fun k => if c = k then f k else 0).sum = 0 := by
        apply List.sum_eq_zero
        intro x hx
        rcases List.mem_map.mp hx with ⟨k', hk', rfl⟩
        rw [if_neg]
        rintro rfl
        exact (List.nodup_cons.mp hnd).1 hk'
      omega
    · rw [if_neg (by rintro rfl; exact (List.nodup_cons.mp hnd).1 hmem)]
      simp [ih (List.nodup_cons.mp hnd).2 hmem]

theorem sum_countPairs_filter {α κ : Type} [DecidableEq κ] (key : α → κ)
    (p : α → α → Bool) :
    ∀ (slots : List α) (K : List κ), K.Nodup → (∀ s ∈ slots, key s ∈ K) →
      (K.map fun k => countPairs p (slots.filter fun s => key s = k)).sum
        = countPairs (fun a b => decide (key a = key b) && p a b) slots := by
  intro slots
  induction slots with
  | nil =>
    intro K _ _
    apply List.sum_eq_zero
    intro x hx
    rcases List.mem_map.mp hx with ⟨k, -, rfl⟩
    rfl
  | cons s rest ih =>
    intro K hnd hK
    have hsK : key s ∈ K := hK s (List.mem_cons_self _ _)
    have hrest : ∀ t ∈ rest, key t ∈ K := fun t ht => hK t (List.mem_cons_of_mem _ ht)
    have hterm : ∀ k, countPairs p ((s :: rest).filter fun t => key t = k)
        = countPairs p (rest.filter fun t => key t = k) +
          (if key s = k then (rest.filter fun t => key t = k).countP (p s) else 0) := by
      intro k
      by_cases hk : key s = k
      · simp only [List.filter_cons, decide_eq_true_eq, if_pos hk, countPairs]
        omega
      · simp [List.filter_cons, hk]
    have hcnt : (rest.filter fun t => key t = key s).countP (p s)
        = rest.countP fun t => decide (key s = key t) && p s t := by
      rw [List.countP_filter]
      apply List.countP_congr
      intro t _
      by_cases ht : key s = key t
      · simp [ht]
      · have ht' : ¬ key t = key s := fun h => ht h.symm
        simp [ht, ht']
    calc (K.map fun k => countPairs p ((s :: rest).filter fun t => key t = k)).sum
        = (K.map fun k => countPairs p (rest.filter fun t => key t = k) +
            (if key s = k then (rest.filter fun t => key t = k).countP (p s)
              else 0)).sum := by
          simp only [hterm]
      _ = (K.map fun k => countPairs p (rest.filter fun t => key t = k)).sum +
            (K.map fun k => if key s = k
              then (rest.filter fun t => key t = k).countP (p s) else 0).sum :=
          sum_map_add _ _ K
      _ = countPairs (fun a b => decide (key a = key b) && p a b) rest +
            (rest.filter fun t => key t = key s).countP (p s) := by
          rw [ih K hnd hrest,
            sum_map_ite_single (fun k => (rest.filter fun t => key t = k).countP (p s))
              (key s) K hnd hsK]
      _ = countPairs (fun a b => decide (key a = key b) && p a b) (s :: rest) := by
          rw [hcnt]
          simp only [countPairs]
          omega

theorem mem_pairConflicts {α : Type} {mk : α → α → Option Conflict}
    {s1 s2 : α} {c : Conflict} :
    ∀ {g : List α}, [s1, s2].Sublist g → mk s1 s2 = some c →
      c ∈ pairConflicts mk g := by
  intro g
  induction g with
  | nil => intro h; simp at h
  | cons a g ih =>
    intro hsub hmk
    cases hsub with
    | cons _ h =>
      exact List.mem_append_right _ (ih h hmk)
    | cons₂ _ h =>
      apply List.mem_append_left
      exact List.mem_filterMap.mpr
        ⟨s2, h.subset (List.mem_singleton_self s2), hmk⟩

/-- C4: the validator reports valid exactly when the combined conflict list
of the four checks is empty, and the empty assignment is valid against any
capacities table. -/
theorem validate_isValid_iff_no_conflicts :
    (∀ (slots : List TimetableSlot) (faculty : List Faculty),
      (validateTimetable slots faculty).1 = true ↔
        (validateTimetable slots faculty).2 = []) ∧
    (∀ faculty : List Faculty, validateTimetable [] faculty = (true, [])) := by
  constructor
  · intro slots faculty
    simp [validateTimetable, List.length_eq_zero]
  · intro faculty
    rfl

theorem checkFacultyTimeConflicts_length (slots : List TimetableSlot) :
    (checkFacultyTimeConflicts slots).length = countPairs sameFacultyClash slots := by
  unfold checkFacultyTimeConflicts groupByKey
  rw [List.length_flatMap, List.map_map]
  simp only [Function.comp_def]
  have hmap : ∀ k ∈ dedupFirst (slots.map fun s => s.faculty_id),
      (pairConflicts
        (fun s1 s2 => if slotsClash s1 s2 then
          some (.facultyOverlap k s1.course_code s2.course_code s1.day
            s1.time_slot.start_time s1.time_slot.end_time)
        else none) (slots.filter fun s => s.faculty_id = k)).length
      = countPairs slotsClash (slots.filter fun s => s.faculty_id = k) := by
    intro k _
    exact pairConflicts_length
      (fun a b => by by_cases h : slotsClash a b <;> simp [h]) _
  rw [List.map_congr_left hmap]
  exact sum_countPairs_filter (fun s => s.faculty_id) slotsClash slots _
    (nodup_dedupFirst _)
    (fun s hs => mem_dedupFirst.mpr (List.mem_map.mpr ⟨s, hs, rfl⟩))

/-- C3: an assignment containing two sessions with the same faculty id, on
the same day, with overlapping intervals, always validates as invalid with
a conflict entry naming that faculty id; and the faculty double-booking
check emits exactly one entry per unordered pair of same-faculty,
same-day, overlapping sessions. -/
theorem faculty_double_booking_detected :
    (∀ (faculty : List Faculty) (slots : List TimetableSlot)
        (s1 s2 : TimetableSlot),
      [s1, s2].Sublist slots → s1.faculty_id = s2.faculty_id →
      s1.day = s2.day → s1.time_slot.overlaps_with s2.time_slot = true →
      (validateTimetable slots faculty).1 = false ∧
        ∃ c ∈ (validateTimetable slots faculty).2,
          c.namesFacultyId s1.faculty_id = true) ∧
    (∀ slots : List TimetableSlot,
      (checkFacultyTimeConflicts slots).length = countPairs sameFacultyClash slots) := by
  refine ⟨?_, checkFacultyTimeConflicts_length⟩
  intro faculty slots s1 s2 hsub hfid hday hover
  have hkmem : s1.faculty_id ∈ dedupFirst (slots.map fun s => s.faculty_id) :=
    mem_dedupFirst.mpr (List.mem_map.mpr ⟨s1, hsub.subset (by simp), rfl⟩)
  have hgmem : (s1.faculty_id, slots.filter fun s => s.faculty_id = s1.faculty_id) ∈
      groupByKey (fun s => s.faculty_id) slots :=
    List.mem_map.mpr ⟨s1.faculty_id, hkmem, rfl⟩
  have hfsub : [s1, s2].Sublist (slots.filter fun s => s.faculty_id = s1.faculty_id) := by
    have heq : [s1, s2].filter (fun s => s.faculty_id = s1.faculty_id) = [s1, s2] := by
      simp [List.filter_cons, hfid.symm]
    exact heq ▸ hsub.filter _
  have hclash : slotsClash s1 s2 = true := by simp [slotsClash, hday, hover]
  have hcp : (Conflict.facultyOverlap s1.faculty_id s1.course_code s2.course_code
        s1.day s1.time_slot.start_time s1.time_slot.end_time) ∈
      pairConflicts
        (fun a b => if slotsClash a b then
          some (.facultyOverlap s1.faculty_id a.course_code b.course_code a.day
            a.time_slot.start_time a.time_slot.end_time)
        else none)
        (slots.filter fun s => s.faculty_id = s1.faculty_id) :=
    mem_pairConflicts hfsub (by simp [hclash])
  have hcf : (Conflict.facultyOverlap s1.faculty_id s1.course_code s2.course_code
        s1.day s1.time_slot.start_time s1.time_slot.end_time) ∈
      checkFacultyTimeConflicts slots :=
    List.mem_flatMap.mpr ⟨_, hgmem, hcp⟩
  have hcv : (Conflict.facultyOverlap s1.faculty_id s1.course_code s2.course_code
        s1.day s1.time_slot.start_time s1.time_slot.end_time) ∈
      (validateTimetable slots faculty).2 := by
    simp only [validateTimetable, List.mem_append]
    exact Or.inl (Or.inl (Or.inl hcf))
  refine ⟨?_, _, hcv, by simp [Conflict.namesFacultyId]⟩
  have hne : (validateTimetable slots faculty).2 ≠ [] := List.ne_nil_of_mem hcv
  simp only [validateTimetable] at hne ⊢
  rw [beq_eq_false_iff_ne]
  exact fun h => hne (List.length_eq_zero.mp h)

/-- C3 witness: two overlapping Monday sessions of faculty `F001` make the
assignment invalid with a conflict naming `F001`. -/
theorem faculty_double_booking_detected_witness :
    (validateTimetable
      [⟨"CS101", "F001", .monday, ⟨"09:00", "10:00"⟩, none, []⟩,
       ⟨"CS201", "F001", .monday, ⟨"09:30", "10:30"⟩, none, []⟩] []).1 = false ∧
    ∃ c ∈ (validateTimetable
      [⟨"CS101", "F001", .monday, ⟨"09:00", "10:00"⟩, none, []⟩,
       ⟨"CS201", "F001", .monday, ⟨"09:30", "10:30"⟩, none, []⟩] []).2,
      c.namesFacultyId "F001" = true :=
  faculty_double_booking_detected.1 []
    [⟨"CS101", "F001", .monday, ⟨"09:00", "10:00"⟩, none, []⟩,
     ⟨"CS201", "F001", .monday, ⟨"09:30", "10:30"⟩, none, []⟩]
    ⟨"CS101", "F001", .monday, ⟨"09:00", "10:00"⟩, none, []⟩
    ⟨"CS201", "F001", .monday, ⟨"09:30", "10:30"⟩, none, []⟩
    (List.Sublist.refl _) rfl rfl (by decide)

theorem isOverloadFor_mkOverload (fid : String) {faculty : List Faculty}
    {fh : String × ℚ} {c : Conflict} (h : mkOverload faculty fh = some c) :
    c.isOverloadFor fid = decide (fh.1 = fid) := by
  unfold mkOverload at h
  rcases hl : facultyLookup faculty fh.1 with _ | f
  · rw [hl] at h
    dsimp only at h
    cases h
  · rw [hl] at h
    dsimp only at h
    by_cases hgt : fh.2 > (f.max_hours_per_week : ℚ)
    · rw [if_pos hgt] at h
      cases h
      rfl
    · rw [if_neg hgt] at h; cases h

theorem countP_isOverloadFor_filterMap (faculty : List Faculty) (fid : String) :
    ∀ L : List (String × ℚ),
      (L.filterMap (mkOverload faculty)).countP (fun c => c.isOverloadFor fid)
        = L.countP fun fh => decide (fh.1 = fid) && (mkOverload faculty fh).isSome := by
  intro L
  induction L with
  | nil => rfl
  | cons fh L ih =>
    rcases h : mkOverload faculty fh with _ | c
    · simp [List.filterMap_cons, h, List.countP_cons, ih]
    · simp [List.filterMap_cons, h, List.countP_cons, ih,
        isOverloadFor_mkOverload fid h]

theorem countP_key_dedup (fid : String) (q : String → Bool) :
    ∀ K : List String, K.Nodup →
      (K.countP fun k => decide (k = fid) && q k)
        = if fid ∈ K then (if q fid then 1 else 0) else 0 := by
  intro K
  induction K with
  | nil => simp
  | cons k K ih =>
    intro hnd
    rcases List.nodup_cons.mp hnd with ⟨hk, hK⟩
    rw [List.countP_cons]
    by_cases hkf : k = fid
    · subst hkf
      have : ¬ k ∈ K := hk
      simp [ih hK, this]
    · have hmemiff : fid ∈ k :: K ↔ fid ∈ K := by
        constructor
        · intro h
          rcases List.mem_cons.mp h with h | h
          · exact absurd h.symm hkf
          · exact h
        · exact List.mem_cons_of_mem _
      simp [ih hK, hkf, hmemiff]

/- Evaluation lemmas for the binary64 rounding model. -/

theorem roundNE_intCast (n : ℤ) : roundNearestEven (n : ℚ) = n := by
  unfold roundNearestEven
  norm_num

theorem roundNE_of_frac_lt {q : ℚ} {f : ℤ} (hf : ⌊q⌋ = f) (h : q - f < 1/2) :
    roundNearestEven q = f := by
  unfold roundNearestEven
  rw [hf, if_pos h]

theorem roundNE_of_lt_frac {q : ℚ} {f : ℤ} (hf : ⌊q⌋ = f) (h : 1/2 < q - f) :
    roundNearestEven q = f + 1 := by
  unfold roundNearestEven
  rw [hf, if_neg (by linarith), if_pos h]

theorem roundNE_of_tie_odd {q : ℚ} {f : ℤ} (hf : ⌊q⌋ = f) (h : q - f = 1/2)
    (ho : ¬ (2 : ℤ) ∣ f) : roundNearestEven q = f + 1 := by
  unfold roundNearestEven
  rw [hf, if_neg (by rw [h]; norm_num), if_neg (by rw [h]; norm_num), if_neg ho]

theorem int_log_two_eq {x : ℚ} {k : ℤ} (hx : 0 < x)
    (h1 : (2:ℚ)^k ≤ x) (h2 : x < (2:ℚ)^(k+1)) : Int.log 2 x = k := by
  have hle : k ≤ Int.log 2 x := by
    rw [← Int.zpow_le_iff_le_log one_lt_two hx]
    exact_mod_cast h1
  have hlt : Int.log 2 x < k + 1 := by
    rw [← Int.lt_zpow_iff_log_lt one_lt_two hx]
    exact_mod_cast h2
  omega

theorem fpRound_eq_of_bounds (x : ℚ) (m : ℤ) (k : ℕ) (hx : 0 < x)
    (h1 : (2:ℚ)^52 ≤ x * 2^k) (h2 : x * 2^k < (2:ℚ)^53)
    (hm : roundNearestEven (x * 2^k) = m) :
    fpRound x = m / (2:ℚ)^k := by
  have h2k : (0:ℚ) < 2^k := by positivity
  have hz52 : (2:ℚ)^((52:ℤ) - k) = (2:ℚ)^(52:ℕ) / (2:ℚ)^(k:ℕ) := by
    rw [zpow_sub₀ two_ne_zero]
    norm_num [zpow_natCast]
  have hz53 : (2:ℚ)^(((52:ℤ) - k) + 1) = (2:ℚ)^(53:ℕ) / (2:ℚ)^(k:ℕ) := by
    rw [show ((52:ℤ) - k) + 1 = (53:ℤ) - k by ring, zpow_sub₀ two_ne_zero]
    norm_num [zpow_natCast]
  have hlog : Int.log 2 x = 52 - k := by
    apply int_log_two_eq hx
    · rw [hz52, div_le_iff h2k]
      exact h1
    · rw [hz53, lt_div_iff h2k]
      exact h2
  unfold fpRound
  rw [if_neg (ne_of_gt hx)]
  dsimp only
  rw [abs_of_pos hx, hlog, if_neg (not_lt.mpr hx.le),
    show ((52:ℤ) - k - 52 : ℤ) = -(k:ℤ) by ring,
    zpow_neg, zpow_natCast, div_eq_mul_inv, inv_inv, hm, one_mul,
    ← div_eq_mul_inv]

theorem fpRound_one : fpRound (1 : ℚ) = 1 := by
  have h := fpRound_eq_of_bounds 1 4503599627370496 52 (by norm_num)
    (by norm_num) (by norm_num)
    (by rw [show ((1:ℚ) * 2^52) = ((4503599627370496 : ℤ) : ℚ) by norm_num]
        exact roundNE_intCast _)
  rw [h]
  norm_num

theorem fpRound_three : fpRound (3 : ℚ) = 3 := by
  have h := fpRound_eq_of_bounds 3 6755399441055744 51 (by norm_num)
    (by norm_num) (by norm_num)
    (by rw [show ((3:ℚ) * 2^51) = ((6755399441055744 : ℤ) : ℚ) by norm_num]
        exact roundNE_intCast _)
  rw [h]
  norm_num

theorem fpRound_four : fpRound (4 : ℚ) = 4 := by
  have h := fpRound_eq_of_bounds 4 4503599627370496 50 (by norm_num)
    (by norm_num) (by norm_num)
    (by rw [show ((4:ℚ) * 2^50) = ((4503599627370496 : ℤ) : ℚ) by norm_num]
        exact roundNE_intCast _)
  rw [h]
  norm_num

theorem fpRound_quarter : fpRound (1/4 : ℚ) = 1/4 := by
  have h := fpRound_eq_of_bounds (1/4) 4503599627370496 54 (by norm_num)
    (by norm_num) (by norm_num)
    (by rw [show ((1:ℚ)/4 * 2^54) = ((4503599627370496 : ℤ) : ℚ) by norm_num]
        exact roundNE_intCast _)
  rw [h]
  norm_num

theorem fpRound_23_12 : fpRound (23/12 : ℚ) = 8631899285793451 / 2^52 := by
  have hfl : ⌊((23:ℚ)/12 * 2^52)⌋ = 8631899285793450 := by
    rw [Int.floor_eq_iff]
    constructor <;> norm_num
  have h := fpRound_eq_of_bounds (23/12) 8631899285793451 52 (by norm_num)
    (by norm_num) (by norm_num)
    (by rw [roundNE_of_lt_frac hfl (by push_cast; norm_num)]; norm_num)
  rw [h]
  norm_num

theorem fpRound_acc2 :
    fpRound (9757799192636075 / 2^52 : ℚ) = 4878899596318038 / 2^51 := by
  have hfl : ⌊((9757799192636075 : ℚ) / 2^52 * 2^51)⌋ = 4878899596318037 := by
    rw [Int.floor_eq_iff]
    constructor <;> norm_num
  have h := fpRound_eq_of_bounds (9757799192636075 / 2^52) 4878899596318038 51
    (by norm_num) (by norm_num) (by norm_num)
    (by rw [roundNE_of_tie_odd hfl (by push_cast; norm_num) (by decide)]; norm_num)
  rw [h]
  norm_num

theorem fpRound_acc3 :
    fpRound (18389698478429527 / 2^52 : ℚ) = 4597424619607382 / 2^50 := by
  have hfl : ⌊((18389698478429527 : ℚ) / 2^52 * 2^50)⌋ = 4597424619607381 := by
    rw [Int.floor_eq_iff]
    constructor <;> norm_num
  have h := fpRound_eq_of_bounds (18389698478429527 / 2^52) 4597424619607382 50
    (by norm_num) (by norm_num) (by norm_num)
    (by rw [roundNE_of_lt_frac hfl (by push_cast; norm_num)]; norm_num)
  rw [h]
  norm_num

theorem fpRound_acc4 :
    fpRound (27021597764222979 / 2^52 : ℚ) = 6755399441055745 / 2^50 := by
  have hfl : ⌊((27021597764222979 : ℚ) / 2^52 * 2^50)⌋ = 6755399441055744 := by
    rw [Int.floor_eq_iff]
    constructor <;> norm_num
  have h := fpRound_eq_of_bounds (27021597764222979 / 2^52) 6755399441055745 50
    (by norm_num) (by norm_num) (by norm_num)
    (by rw [roundNE_of_lt_frac hfl (by push_cast; norm_num)]; norm_num)
  rw [h]
  norm_num

/-- C5 (amended): the workload check accumulates each scheduled faculty
id's hours in binary64 floats — each session's `(end − start)/60` correctly
rounded and each addition rounded again — and emits exactly one overload
entry iff that float total strictly exceeds the faculty's cap; ids absent
from the capacities table, or with no sessions, are never reported.  At the
claim's own boundary the float totals are exact: a single 3-hour session
against a cap of 3 is no overload, while 3 + 1 hours is exactly one
overload entry. -/
theorem faculty_overload_strict :
    (∀ (slots : List TimetableSlot) (faculty : List Faculty) (fid : String)
        (f : Faculty),
      fid ∈ slots.map (fun s => s.faculty_id) →
      facultyLookup faculty fid = some f →
      (checkFacultyWorkload slots faculty).countP (fun c => c.isOverloadFor fid)
        = if floatFacultyHours slots fid > (f.max_hours_per_week : ℚ)
          then 1 else 0) ∧
    (∀ (slots : List TimetableSlot) (faculty : List Faculty) (fid : String),
      facultyLookup faculty fid = none →
      (checkFacultyWorkload slots faculty).countP (fun c => c.isOverloadFor fid) = 0) ∧
    (∀ (slots : List TimetableSlot) (faculty : List Faculty) (fid : String),
      fid ∉ slots.map (fun s => s.faculty_id) →
      (checkFacultyWorkload slots faculty).countP (fun c => c.isOverloadFor fid) = 0) ∧
    checkFacultyWorkload
      [⟨"CS101", "F001", .monday, ⟨"09:00", "12:00"⟩, none, []⟩]
      [⟨"F001", "Alice", "CS", 3, []⟩] = [] ∧
    checkFacultyWorkload
      [⟨"CS101", "F001", .monday, ⟨"09:00", "12:00"⟩, none, []⟩,
       ⟨"CS102", "F001", .tuesday, ⟨"09:00", "10:00"⟩, none, []⟩]
      [⟨"F001", "Alice", "CS", 3, []⟩] = [.overload "F001" 4 3] := by
  have e9 : timeToMinutes "09:00" = 540 := by decide
  have e12 : timeToMinutes "12:00" = 720 := by decide
  have e10 : timeToMinutes "10:00" = 600 := by decide
  have hs3 : slotHours ⟨"CS101", "F001", .monday, ⟨"09:00", "12:00"⟩, none, []⟩
      = 3 := by
    unfold slotHours
    rw [show ((timeToMinutes "12:00" : ℚ) - (timeToMinutes "09:00" : ℚ)) / 60
      = 3 by rw [e9, e12]; norm_num]
    exact fpRound_three
  have hs1 : slotHours ⟨"CS102", "F001", .tuesday, ⟨"09:00", "10:00"⟩, none, []⟩
      = 1 := by
    unfold slotHours
    rw [show ((timeToMinutes "10:00" : ℚ) - (timeToMinutes "09:00" : ℚ)) / 60
      = 1 by rw [e9, e10]; norm_num]
    exact fpRound_one
  refine ⟨?_, ?_, ?_, ?_, ?_⟩
  · intro slots faculty fid f hmem hlk
    unfold checkFacultyWorkload facultyHours groupByKey
    rw [countP_isOverloadFor_filterMap, List.countP_map, List.countP_map]
    simp only [Function.comp_def]
    rw [countP_key_dedup fid _ _ (nodup_dedupFirst _),
      if_pos (mem_dedupFirst.mpr hmem)]
    have hq : (mkOverload faculty
        (fid, accumHours (slots.filter fun s => s.faculty_id = fid))).isSome
        = decide (floatFacultyHours slots fid > (f.max_hours_per_week : ℚ)) := by
      unfold mkOverload
      rw [show facultyLookup faculty
          (fid, accumHours (slots.filter fun s => s.faculty_id = fid)).1
          = some f from hlk]
      dsimp only
      by_cases hgt : accumHours (slots.filter fun s => s.faculty_id = fid)
          > (f.max_hours_per_week : ℚ)
      · rw [if_pos hgt]
        simp [floatFacultyHours, hgt]
      · rw [if_neg hgt]
        simp [floatFacultyHours, hgt]
    rw [hq]
    by_cases hgt : floatFacultyHours slots fid > (f.max_hours_per_week : ℚ) <;>
      simp [hgt]
  · intro slots faculty fid hlk
    unfold checkFacultyWorkload
    rw [countP_isOverloadFor_filterMap]
    apply List.countP_eq_zero.mpr
    intro fh _
    by_cases h : fh.1 = fid
    · simp [mkOverload, h, hlk]
    · simp [h]
  · intro slots faculty fid hmem
    unfold checkFacultyWorkload
    rw [countP_isOverloadFor_filterMap]
    apply List.countP_eq_zero.mpr
    intro fh hfh
    rcases List.mem_map.mp hfh with ⟨g, hg, rfl⟩
    rcases List.mem_map.mp hg with ⟨k, hk, rfl⟩
    have hkm : k ∈ slots.map fun s => s.faculty_id := mem_dedupFirst.mp hk
    have hne : k ≠ fid := fun h => hmem (h ▸ hkm)
    simp [hne]
  · have hacc : accumHours
        [⟨"CS101", "F001", .monday, ⟨"09:00", "12:00"⟩, none, []⟩] = 3 := by
      unfold accumHours
      simp only [List.foldl_cons, List.foldl_nil]
      rw [hs3, zero_add, fpRound_three]
    have hfh : facultyHours
        [⟨"CS101", "F001", .monday, ⟨"09:00", "12:00"⟩, none, []⟩]
        = [("F001", (3:ℚ))] := by
      show [("F001", accumHours
        [⟨"CS101", "F001", .monday, ⟨"09:00", "12:00"⟩, none, []⟩])]
        = [("F001", (3:ℚ))]
      rw [hacc]
    have hmk : mkOverload [⟨"F001", "Alice", "CS", 3, []⟩] ("F001", (3:ℚ))
        = none := by
      unfold mkOverload
      rw [show facultyLookup [⟨"F001", "Alice", "CS", 3, []⟩] ("F001", (3:ℚ)).1
        = some ⟨"F001", "Alice", "CS", 3, []⟩ from by decide]
      dsimp only
      rw [if_neg (by norm_num)]
    unfold checkFacultyWorkload
    rw [hfh, List.filterMap_cons_none hmk]
    rfl
  · have hacc : accumHours
        [⟨"CS101", "F001", .monday, ⟨"09:00", "12:00"⟩, none, []⟩,
         ⟨"CS102", "F001", .tuesday, ⟨"09:00", "10:00"⟩, none, []⟩] = 4 := by
      unfold accumHours
      simp only [List.foldl_cons, List.foldl_nil]
      rw [hs3, hs1, zero_add, fpRound_three,
        show (3:ℚ) + 1 = 4 by norm_num, fpRound_four]
    have hfh : facultyHours
        [⟨"CS101", "F001", .monday, ⟨"09:00", "12:00"⟩, none, []⟩,
         ⟨"CS102", "F001", .tuesday, ⟨"09:00", "10:00"⟩, none, []⟩]
        = [("F001", (4:ℚ))] := by
      show [("F001", accumHours
        [⟨"CS101", "F001", .monday, ⟨"09:00", "12:00"⟩, none, []⟩,
         ⟨"CS102", "F001", .tuesday, ⟨"09:00", "10:00"⟩, none, []⟩])]
        = [("F001", (4:ℚ))]
      rw [hacc]
    have hmk : mkOverload [⟨"F001", "Alice", "CS", 3, []⟩] ("F001", (4:ℚ))
        = some (.overload "F001" 4 3) := by
      unfold mkOverload
      rw [show facultyLookup [⟨"F001", "Alice", "CS", 3, []⟩] ("F001", (4:ℚ)).1
        = some ⟨"F001", "Alice", "CS", 3, []⟩ from by decide]
      dsimp only
      rw [if_pos (by norm_num)]
    unfold checkFacultyWorkload
    rw [hfh, List.filterMap_cons_some hmk]
    rfl

/-- C5 counterexample to the claim as stated: four sessions of 15, 115, 115
and 115 minutes total exactly 6 hours, yet the float accumulation the
source performs rounds up to strictly more than 6, so the validator emits
an overload entry for a faculty whose exact total only equals its cap of 6
— against the claim's strict-exceedance iff and its exact-boundary
statement. -/
theorem faculty_overload_exact_boundary_counterexample :
    exactFacultyHours overloadBoundarySlots "F001" = ((6 : Int) : ℚ) ∧
    (checkFacultyWorkload overloadBoundarySlots
      [⟨"F001", "Bob", "CS", 6, []⟩]).countP
      (fun c => c.isOverloadFor "F001") = 1 := by
  have e9 : timeToMinutes "09:00" = 540 := by decide
  have e915 : timeToMinutes "09:15" = 555 := by decide
  have e1055 : timeToMinutes "10:55" = 655 := by decide
  have hfil : overloadBoundarySlots.filter (fun s => s.faculty_id = "F001")
      = overloadBoundarySlots := by decide
  constructor
  · unfold exactFacultyHours
    rw [hfil]
    unfold overloadBoundarySlots
    simp only [List.map_cons, List.map_nil, List.sum_cons, List.sum_nil,
      exactSlotHours]
    rw [e9, e915, e1055]
    norm_num
  · have hq : slotHours ⟨"CS101", "F001", .monday, ⟨"09:00", "09:15"⟩, none, []⟩
        = 1/4 := by
      unfold slotHours
      rw [show ((timeToMinutes "09:15" : ℚ) - (timeToMinutes "09:00" : ℚ)) / 60
        = 1/4 by rw [e9, e915]; norm_num]
      exact fpRound_quarter
    have hb : ∀ (cc : String) (d : DayOfWeek),
        slotHours ⟨cc, "F001", d, ⟨"09:00", "10:55"⟩, none, []⟩
          = 8631899285793451 / 2^52 := by
      intro cc d
      unfold slotHours
      rw [show ((timeToMinutes "10:55" : ℚ) - (timeToMinutes "09:00" : ℚ)) / 60
        = 23/12 by rw [e9, e1055]; norm_num]
      exact fpRound_23_12
    have hacc : accumHours overloadBoundarySlots = 6755399441055745 / 2^50 := by
      unfold accumHours overloadBoundarySlots
      simp only [List.foldl_cons, List.foldl_nil]
      rw [hq, hb, hb, hb, zero_add, fpRound_quarter,
        show (1:ℚ)/4 + 8631899285793451 / 2^52
          = 9757799192636075 / 2^52 by norm_num,
        fpRound_acc2,
        show (4878899596318038 : ℚ) / 2^51 + 8631899285793451 / 2^52
          = 18389698478429527 / 2^52 by norm_num,
        fpRound_acc3,
        show (4597424619607382 : ℚ) / 2^50 + 8631899285793451 / 2^52
          = 27021597764222979 / 2^52 by norm_num,
        fpRound_acc4]
    have hfh : facultyHours overloadBoundarySlots
        = [("F001", (6755399441055745 : ℚ) / 2^50)] := by
      show [("F001", accumHours overloadBoundarySlots)] = _
      rw [hacc]
    have hmk : mkOverload [⟨"F001", "Bob", "CS", 6, []⟩]
        ("F001", (6755399441055745 : ℚ) / 2^50)
        = some (.overload "F001" ((6755399441055745 : ℚ) / 2^50) 6) := by
      unfold mkOverload
      rw [show facultyLookup [⟨"F001", "Bob", "CS", 6, []⟩]
          ("F001", (6755399441055745 : ℚ) / 2^50).1
        = some ⟨"F001", "Bob", "CS", 6, []⟩ from by decide]
      dsimp only
      rw [if_pos (by norm_num)]
    unfold checkFacultyWorkload
    rw [hfh, List.filterMap_cons_some hmk]
    simp [Conflict.isOverloadFor]

theorem lt_foldl_max (c : ℚ) :
    ∀ (xs : List ℚ) (x : ℚ), c < xs.foldl max x ↔ c < x ∨ ∃ y ∈ xs, c < y := by
  intro xs
  induction xs with
  | nil => simp
  | cons y ys ih =>
    intro x
    rw [List.foldl_cons, ih]
    simp only [lt_max_iff, List.mem_cons]
    constructor
    · rintro (⟨h | h⟩ | ⟨z, hz, h⟩)
      · exact Or.inl h
      · exact Or.inr ⟨y, Or.inl rfl, h⟩
      · exact Or.inr ⟨z, Or.inr hz, h⟩
    · rintro (h | ⟨z, rfl | hz, h⟩)
      · exact Or.inl (Or.inl h)
      · exact Or.inl (Or.inr h)
      · exact Or.inr ⟨z, hz, h⟩

theorem lt_listMax_iff {c : ℚ} :
    ∀ {l : List ℚ}, l ≠ [] → (c < listMax l ↔ ∃ y ∈ l, c < y) := by
  intro l hl
  cases l with
  | nil => exact absurd rfl hl
  | cons x xs =>
    simp only [listMax, lt_foldl_max, List.mem_cons]
    constructor
    · rintro (h | ⟨y, hy, h⟩)
      · exact ⟨x, Or.inl rfl, h⟩
      · exact ⟨y, Or.inr hy, h⟩
    · rintro ⟨y, rfl | hy, h⟩
      · exact Or.inl h
      · exact Or.inr ⟨y, hy, h⟩

theorem dedupFirst_all_eq {κ : Type} [DecidableEq κ] (d : κ) :
    ∀ l : List κ, l ≠ [] → (∀ x ∈ l, x = d) → dedupFirst l = [d] := by
  intro l
  induction l with
  | nil => intro h; exact absurd rfl h
  | cons k ks ih =>
    intro _ hall
    have hk : k = d := hall k (List.mem_cons_self _ _)
    subst hk
    by_cases hks : ks = []
    · subst hks; simp [dedupFirst]
    · rw [dedupFirst, ih hks fun x hx => hall x (List.mem_cons_of_mem _ hx)]
      simp

/-- C8: the distribution check emits exactly one entry iff some day with
sessions deviates from the mean count over the occupied days by strictly
more than 2; the empty assignment and any single-day assignment emit no
entry. -/
theorem daily_balance_check :
    (∀ slots : List TimetableSlot,
      ((checkCreditDistribution slots).length = 1 ↔
        ∃ g ∈ dayGroups slots, |(g.2.length : ℚ) - avgSlots slots| > 2)) ∧
    checkCreditDistribution [] = [] ∧
    (∀ (d : DayOfWeek) (slots : List TimetableSlot),
      (∀ s ∈ slots, s.day = d) → checkCreditDistribution slots = []) := by
  refine ⟨?_, rfl, ?_⟩
  · intro slots
    unfold checkCreditDistribution
    dsimp only
    split_ifs with hc hdev
    · simp [List.map_eq_nil_iff.mp hc]
    · have hne : (((dayGroups slots).map fun g => g.2.length).map
          (deviation (avgSlots slots))) ≠ [] := by
        simp only [ne_eq, List.map_eq_nil_iff]
        exact fun h => hc (by simp [h])
      rcases (lt_listMax_iff hne).mp hdev with ⟨y, hy, h2⟩
      rcases List.mem_map.mp hy with ⟨cnt, hcnt, rfl⟩
      rcases List.mem_map.mp hcnt with ⟨g, hg, rfl⟩
      exact ⟨fun _ => ⟨g, hg, h2⟩, fun _ => rfl⟩
    · have hne : (((dayGroups slots).map fun g => g.2.length).map
          (deviation (avgSlots slots))) ≠ [] := by
        simp only [ne_eq, List.map_eq_nil_iff]
        exact fun h => hc (by simp [h])
      refine iff_of_false (by simp) ?_
      rintro ⟨g, hg, h2⟩
      exact hdev ((lt_listMax_iff hne).mpr
        ⟨deviation (avgSlots slots) g.2.length,
          List.mem_map.mpr ⟨g.2.length,
            List.mem_map.mpr ⟨g, hg, rfl⟩, rfl⟩, h2⟩)
  · intro d slots hall
    by_cases hnil : slots = []
    · subst hnil; rfl
    · have h1 : slots.map (fun s => s.day) ≠ [] := by simpa using hnil
      have h2 : ∀ x ∈ slots.map (fun s => s.day), x = d := by
        intro x hx
        rcases List.mem_map.mp hx with ⟨s, hs, rfl⟩
        exact hall s hs
      have h3 : slots.filter (fun s => s.day = d) = slots :=
        List.filter_eq_self.mpr fun s hs => by simp [hall s hs]
      have hdg : dayGroups slots = [(d, slots)] := by
        unfold dayGroups groupByKey
        rw [dedupFirst_all_eq d _ h1 h2]
        simp [h3]
      unfold checkCreditDistribution avgSlots
      rw [hdg]
      norm_num [listMax, deviation]

/-- C8 witness: a one-session assignment (all sessions on Monday) yields no
balance conflict. -/
theorem daily_balance_check_witness :
    checkCreditDistribution
      [⟨"CS101", "F001", .monday, ⟨"09:00", "10:00"⟩, none, []⟩] = [] :=
  daily_balance_check.2.2 .monday
    [⟨"CS101", "F001", .monday, ⟨"09:00", "10:00"⟩, none, []⟩] (by decide)

/-- C5 witness: the workload count theorem applied to a single 3-hour
session of `F001` against a capacities table capping `F001` at 3 hours. -/
theorem faculty_overload_strict_witness :
    (checkFacultyWorkload
      [⟨"CS101", "F001", .monday, ⟨"09:00", "12:00"⟩, none, []⟩]
      [⟨"F001", "Alice", "CS", 3, []⟩]).countP (fun c => c.isOverloadFor "F001")
      = if floatFacultyHours
          [⟨"CS101", "F001", .monday, ⟨"09:00", "12:00"⟩, none, []⟩] "F001"
          > ((3 : Int) : ℚ) then 1 else 0 :=
  faculty_overload_strict.1
    [⟨"CS101", "F001", .monday, ⟨"09:00", "12:00"⟩, none, []⟩]
    [⟨"F001", "Alice", "CS", 3, []⟩] "F001" ⟨"F001", "Alice", "CS", 3, []⟩
    (by decide) (by decide)

/- Helper lemmas for the orchestrator (claims C1, C6, C7). -/

theorem slotOfData_dataOfSlot (s : TimetableSlot) :
    slotOfData? (dataOfSlot s) = some { s with student_ids := [] } := by
  cases s with
  | mk cc fid day ts room sid => cases day <;> rfl

theorem parseSlots_map_dataOfSlot :
    ∀ l : List TimetableSlot, (∀ s ∈ l, s.student_ids = []) →
      parseSlots (l.map dataOfSlot) = l := by
  intro l
  induction l with
  | nil => intro _; rfl
  | cons s l ih =>
    intro h
    have hs : { s with student_ids := ([] : List String) } = s := by
      have := h s (List.mem_cons_self _ _)
      cases s
      simp_all
    show ((dataOfSlot s :: l.map dataOfSlot).filterMap slotOfData?) = s :: l
    rw [List.filterMap_cons_some (slotOfData_dataOfSlot s), hs]
    exact congrArg (s :: ·) (ih fun t ht => h t (List.mem_cons_of_mem _ ht))

theorem student_ids_parseSlots (data : List SlotData) :
    ∀ s ∈ parseSlots data, s.student_ids = [] := by
  intro s hs
  rcases List.mem_filterMap.mp hs with ⟨d, _, hsd⟩
  unfold slotOfData? at hsd
  rcases h : DayOfWeek.ofString? d.day with _ | day <;> rw [h] at hsd
  · cases hsd
  · cases hsd
    rfl

@[simp] theorem validate_courses (st : GraphState) :
    (TimetableGraph.validate st).courses = st.courses := rfl

@[simp] theorem validate_faculty (st : GraphState) :
    (TimetableGraph.validate st).faculty = st.faculty := rfl

@[simp] theorem validate_generated_slots (st : GraphState) :
    (TimetableGraph.validate st).generated_slots = st.generated_slots := rfl

@[simp] theorem validate_iteration (st : GraphState) :
    (TimetableGraph.validate st).iteration = st.iteration := rfl

@[simp] theorem validate_conflicts (st : GraphState) :
    (TimetableGraph.validate st).conflicts
      = (validateTimetable st.generated_slots st.faculty).2 := rfl

@[simp] theorem resolveConflicts_iteration (o : Oracle) (st : GraphState) :
    (TimetableGraph.resolveConflicts o st).iteration = st.iteration + 1 := rfl

@[simp] theorem generateInitial_iteration (o : Oracle) (st : GraphState) :
    (TimetableGraph.generateInitial o st).iteration = 1 := rfl

@[simp] theorem resolveConflicts_generated_slots (o : Oracle) (st : GraphState) :
    (TimetableGraph.resolveConflicts o st).generated_slots
      = parseSlots (TimetableAgent.resolveConflicts o
          (st.generated_slots.map dataOfSlot) st.conflicts st.courses st.faculty) := rfl

/-- C7: a repair iteration whose oracle call fails to parse leaves the
assignment unchanged and still increments the iteration counter. -/
theorem resolve_failure_keeps_assignment :
    ∀ (o : Oracle) (st : GraphState),
      (∀ s ∈ st.generated_slots, s.student_ids = []) →
      o.resolve (st.generated_slots.map dataOfSlot) st.conflicts
        st.courses st.faculty = none →
      (TimetableGraph.resolveConflicts o st).generated_slots = st.generated_slots ∧
      (TimetableGraph.resolveConflicts o st).iteration = st.iteration + 1 := by
  intro o st hids hfail
  refine ⟨?_, rfl⟩
  rw [resolveConflicts_generated_slots]
  unfold TimetableAgent.resolveConflicts
  rw [hfail]
  exact parseSlots_map_dataOfSlot st.generated_slots hids

/-- C7 witness: a failing repair call on a one-session state keeps the
session list and moves the counter from 1 to 2. -/
theorem resolve_failure_keeps_assignment_witness :
    (TimetableGraph.resolveConflicts failingOracle
      ⟨[], [], [⟨"CS101", "F001", .monday, ⟨"09:00", "10:00"⟩, none, []⟩],
        [], "has_conflicts", 1⟩).generated_slots
      = [⟨"CS101", "F001", .monday, ⟨"09:00", "10:00"⟩, none, []⟩] ∧
    (TimetableGraph.resolveConflicts failingOracle
      ⟨[], [], [⟨"CS101", "F001", .monday, ⟨"09:00", "10:00"⟩, none, []⟩],
        [], "has_conflicts", 1⟩).iteration = 1 + 1 :=
  resolve_failure_keeps_assignment failingOracle
    ⟨[], [], [⟨"CS101", "F001", .monday, ⟨"09:00", "10:00"⟩, none, []⟩],
      [], "has_conflicts", 1⟩ (by decide) rfl

/-- C6: an optimize step whose oracle call fails to parse keeps the
pre-optimization assignment unchanged; and every assignment the workflow
parses has the empty `student_ids` the first conjunct assumes. -/
theorem optimize_failure_keeps_assignment :
    (∀ (o : Oracle) (st : GraphState),
      (∀ s ∈ st.generated_slots, s.student_ids = []) →
      o.optimize (st.generated_slots.map dataOfSlot) st.courses st.faculty = none →
      (TimetableGraph.optimize o st).generated_slots = st.generated_slots) ∧
    (∀ (data : List SlotData), ∀ s ∈ parseSlots data, s.student_ids = []) := by
  refine ⟨?_, student_ids_parseSlots⟩
  intro o st hids hfail
  show parseSlots (TimetableAgent.optimizeDistribution o
    (st.generated_slots.map dataOfSlot) st.courses st.faculty) = st.generated_slots
  unfold TimetableAgent.optimizeDistribution
  rw [hfail]
  exact parseSlots_map_dataOfSlot st.generated_slots hids

/-- C6 witness: a failing optimize call on a one-session state keeps the
session list. -/
theorem optimize_failure_keeps_assignment_witness :
    (TimetableGraph.optimize failingOracle
      ⟨[], [], [⟨"CS101", "F001", .monday, ⟨"09:00", "10:00"⟩, none, []⟩],
        [], "valid", 1⟩).generated_slots
      = [⟨"CS101", "F001", .monday, ⟨"09:00", "10:00"⟩, none, []⟩] :=
  optimize_failure_keeps_assignment.1 failingOracle
    ⟨[], [], [⟨"CS101", "F001", .monday, ⟨"09:00", "10:00"⟩, none, []⟩],
      [], "valid", 1⟩ (by decide) rfl

theorem loop_resolve_step (o : Oracle) (st : GraphState)
    (h1 : (validateTimetable st.generated_slots st.faculty).2 ≠ [])
    (h2 : st.iteration < 3) :
    TimetableGraph.loop o st =
      ((TimetableGraph.loop o (TimetableGraph.resolveConflicts o
          (TimetableGraph.validate st))).1,
       (TimetableGraph.loop o (TimetableGraph.resolveConflicts o
          (TimetableGraph.validate st))).2 + 1) := by
  have hcond : TimetableGraph.shouldResolveConflicts (TimetableGraph.validate st)
      = "resolve" := by
    simp [TimetableGraph.shouldResolveConflicts, h1, h2]
  rw [TimetableGraph.loop]
  simp [hcond]

theorem loop_finalize_step (o : Oracle) (st : GraphState)
    (h1 : (validateTimetable st.generated_slots st.faculty).2 ≠ [])
    (h2 : ¬ st.iteration < 3) :
    TimetableGraph.loop o st =
      (TimetableGraph.finalize (TimetableGraph.validate st), 0) := by
  have hcond : TimetableGraph.shouldResolveConflicts (TimetableGraph.validate st)
      = "finalize" := by
    simp [TimetableGraph.shouldResolveConflicts, h1, h2]
  rw [TimetableGraph.loop]
  rw [dif_neg (by simp [hcond]), if_neg (by simp [hcond])]

/-- C1 (amended): with an oracle whose candidates always still conflict, a
run terminates after exactly 2 repair attempts — the counter starts at 0,
the generation step sets it to 1, each repair attempt adds 1, and the loop
gives up once it reaches 3 — ending finalized with a non-empty conflict
list. -/
theorem repair_loop_gives_up_after_two_attempts :
    ∀ (o : Oracle) (courses : List Course) (faculty : List Faculty),
      (validateTimetable (parseSlots (o.generate courses faculty)) faculty).2 ≠ [] →
      (∀ (current : List SlotData) (conflicts : List Conflict),
        (validateTimetable (parseSlots
          (TimetableAgent.resolveConflicts o current conflicts courses faculty))
          faculty).2 ≠ []) →
      (TimetableGraph.initialState courses faculty).iteration = 0 ∧
      (TimetableGraph.generateInitial o
        (TimetableGraph.initialState courses faculty)).iteration = 1 ∧
      (TimetableGraph.generateTimetable o courses faculty).2 = 2 ∧
      (TimetableGraph.generateTimetable o courses faculty).1.status = "finalized" ∧
      (TimetableGraph.generateTimetable o courses faculty).1.conflicts ≠ [] ∧
      (TimetableGraph.generateTimetable o courses faculty).1.iteration = 3 := by
  intro o courses faculty hgen hres
  have e1 := loop_resolve_step o
    (TimetableGraph.generateInitial o (TimetableGraph.initialState courses faculty))
    hgen (by simp)
  have e2 := loop_resolve_step o
    (TimetableGraph.resolveConflicts o (TimetableGraph.validate
      (TimetableGraph.generateInitial o
        (TimetableGraph.initialState courses faculty))))
    (hres _ _) (by simp)
  have e3 := loop_finalize_step o
    (TimetableGraph.resolveConflicts o (TimetableGraph.validate
      (TimetableGraph.resolveConflicts o (TimetableGraph.validate
        (TimetableGraph.generateInitial o
          (TimetableGraph.initialState courses faculty))))))
    (hres _ _) (by simp)
  have hrun : TimetableGraph.generateTimetable o courses faculty =
      (TimetableGraph.finalize (TimetableGraph.validate
        (TimetableGraph.resolveConflicts o (TimetableGraph.validate
          (TimetableGraph.resolveConflicts o (TimetableGraph.validate
            (TimetableGraph.generateInitial o
              (TimetableGraph.initialState courses faculty))))))), 2) := by
    show TimetableGraph.loop o _ = _
    rw [e1, e2, e3]
  refine ⟨rfl, rfl, ?_, ?_, ?_, ?_⟩
  · rw [hrun]
  · rw [hrun]
    rfl
  · rw [hrun]
    exact hres _ _
  · rw [hrun]
    rfl

/-- C1 helper: the stub candidate validates to a non-empty conflict list
against an empty capacities table. -/
theorem stub_candidate_conflicts :
    (validateTimetable (parseSlots clashingCandidate) []).2 ≠ [] := by
  intro h
  apply (by decide : checkFacultyTimeConflicts (parseSlots clashingCandidate) ≠ [])
  have h' : checkFacultyTimeConflicts (parseSlots clashingCandidate) ++
      checkRoomConflicts (parseSlots clashingCandidate) ++
      checkFacultyWorkload (parseSlots clashingCandidate) [] ++
      checkCreditDistribution (parseSlots clashingCandidate) = [] := h
  exact (List.append_eq_nil.mp ((List.append_eq_nil.mp
    ((List.append_eq_nil.mp h').1)).1)).1

/-- C1 witness: the amended theorem applied to the concrete stub oracle. -/
theorem repair_loop_gives_up_after_two_attempts_witness :
    (TimetableGraph.initialState [] []).iteration = 0 ∧
    (TimetableGraph.generateInitial stubOracle
      (TimetableGraph.initialState [] [])).iteration = 1 ∧
    (TimetableGraph.generateTimetable stubOracle [] []).2 = 2 ∧
    (TimetableGraph.generateTimetable stubOracle [] []).1.status = "finalized" ∧
    (TimetableGraph.generateTimetable stubOracle [] []).1.conflicts ≠ [] ∧
    (TimetableGraph.generateTimetable stubOracle [] []).1.iteration = 3 :=
  repair_loop_gives_up_after_two_attempts stubOracle [] []
    stub_candidate_conflicts (fun _ _ => stub_candidate_conflicts)

/-- C1 counterexample to the claim as stated: with the always-conflicting
stub oracle the run performs 2 repair attempts, not 3 — the generation step
has already set the iteration counter to 1 rather than leaving it at 0. -/
theorem repair_loop_three_attempts_counterexample :
    (TimetableGraph.generateTimetable stubOracle [] []).2 = 2 ∧
    ¬ (TimetableGraph.generateTimetable stubOracle [] []).2 = 3 := by
  have h2 : (TimetableGraph.generateTimetable stubOracle [] []).2 = 2 := by
    show (TimetableGraph.loop stubOracle _).2 = 2
    rw [loop_resolve_step stubOracle
      (TimetableGraph.generateInitial stubOracle (TimetableGraph.initialState [] []))
      stub_candidate_conflicts (by decide)]
    rw [loop_resolve_step stubOracle
      (TimetableGraph.resolveConflicts stubOracle (TimetableGraph.validate
        (TimetableGraph.generateInitial stubOracle
          (TimetableGraph.initialState [] []))))
      stub_candidate_conflicts (by decide)]
    rw [loop_finalize_step stubOracle
      (TimetableGraph.resolveConflicts stubOracle (TimetableGraph.validate
        (TimetableGraph.resolveConflicts stubOracle (TimetableGraph.validate
          (TimetableGraph.generateInitial stubOracle
            (TimetableGraph.initialState [] []))))))
      stub_candidate_conflicts (by decide)]
  exact ⟨h2, by rw [h2]; decide⟩

/-- C10: sessions with `room` equal to `None` or `""` are skipped by the
room check — the check only sees the sub-assignment of sessions with a
non-empty room, and a pair of roomless sessions never yields a room
conflict, whatever their days and times. -/
theorem room_check_skips_unassigned_rooms :
    (∀ slots : List TimetableSlot,
      checkRoomConflicts slots = checkRoomConflicts (slots.filter hasRoom)) ∧
    (∀ s1 s2 : TimetableSlot,
      (s1.room = none ∨ s1.room = some "") → (s2.room = none ∨ s2.room = some "") →
      checkRoomConflicts [s1, s2] = []) := by
  constructor
  · intro slots
    simp [checkRoomConflicts, List.filter_filter]
  · intro s1 s2 h1 h2
    have e1 : hasRoom s1 = false := by
      rcases h1 with h | h <;> simp [hasRoom, h]
    have e2 : hasRoom s2 = false := by
      rcases h2 with h | h <;> simp [hasRoom, h]
    simp [checkRoomConflicts, List.filter, e1, e2, groupByKey, dedupFirst]

/-- C10 witness: two overlapping same-day sessions whose rooms are `""` and
`None` produce no room conflict. -/
theorem room_check_skips_unassigned_rooms_witness :
    checkRoomConflicts
      [⟨"CS101", "F001", .monday, ⟨"09:00", "10:00"⟩, some "", []⟩,
       ⟨"CS201", "F002", .monday, ⟨"09:30", "10:30"⟩, none, []⟩] = [] :=
  room_check_skips_unassigned_rooms.2
    ⟨"CS101", "F001", .monday, ⟨"09:00", "10:00"⟩, some "", []⟩
    ⟨"CS201", "F002", .monday, ⟨"09:30", "10:30"⟩, none, []⟩
    (Or.inr rfl) (Or.inl rfl)

end Samay
